import Mathlib

/-!
Verification of the phishing-detector feature-extraction and scoring engine.

The definitions below are a shallow embedding of the Python sources
`backend/app/predictor.py`, `backend/app/features.py`,
`backend/app/advanced_feature_extractor.py` and
`ml_engine/advanced_feature_extractor.py`, together with the parts of the
standard library (`urllib.parse.urlsplit` / `urlparse`, CPython ≥ 3.10) and of
the `tldextract` package that those sources call.

Modelling conventions:
* Python strings are Lean `String`s, manipulated through their `List Char`
  "data".  Claims only exercise ASCII inputs, so ASCII-only character
  predicates (`Char.isAlpha`, `Char.isDigit`, `Char.toLower`) stand in for
  Python's Unicode-aware `str.isalpha` / `str.isdigit` / `str.lower`.
* Python floats are exact rationals (`ℚ`) where the code only ever uses
  arithmetic on decimal constants, and reals (`ℝ`) where logarithms appear
  (Shannon entropy).
* Code that can raise is modelled with `Except String`; the message is the
  one CPython produces.
-/

namespace Phishing

/-! ### Python string primitives -/

/-- Python `str.lower()` restricted to ASCII (the only case the claims use). -/
def lowerData (s : String) : List Char :=
  s.data.map Char.toLower

/-- Python `needle in hay` for strings: substring test. -/
def isSub (needle hay : List Char) : Bool :=
  hay.tails.any fun t => needle.isPrefixOf t

/-- Index of the first occurrence of `sep`, as Python `str.find` (but `Option`
instead of `-1`). -/
def findIdxOf? (sep : Char) (l : List Char) : Option Nat :=
  l.findIdx? (· == sep)

/-- Index of the last occurrence of `sep`, as Python `str.rfind`. -/
def rfindIdxOf? (sep : Char) (l : List Char) : Option Nat :=
  (l.reverse.findIdx? (· == sep)).map fun j => l.length - 1 - j

/-- Python `s.split(sep, 1)`: the part before the first occurrence of `sep`
and the part after it (the whole string and `""` when `sep` is absent). -/
def splitFirst (sep : Char) (l : List Char) : List Char × List Char :=
  match findIdxOf? sep l with
  | some i => (l.take i, l.drop (i + 1))
  | none => (l, [])

/-! ### CPython `urllib.parse.urlsplit` / `urlparse`

Follows `Lib/urllib/parse.py` of CPython ≥ 3.10: leading/trailing C0-control
and space characters are stripped, all tab/CR/LF characters are removed, the
scheme is split off, `//`-prefixed rests yield a netloc (raising
`ValueError("Invalid IPv6 URL")` on unbalanced brackets), then fragment and
query are split off.  The NFKC netloc check and the bracketed-host validation
(which only concern non-ASCII or bracketed hosts, exercised by no claim) are
omitted. -/

def isC0OrSpace (c : Char) : Bool :=
  c.toNat ≤ 0x20

/-- Python `url.strip(_WHATWG_C0_CONTROL_OR_SPACE)`. -/
def stripC0 (l : List Char) : List Char :=
  ((l.dropWhile isC0OrSpace).reverse.dropWhile isC0OrSpace).reverse

/-- Removal of `_UNSAFE_URL_BYTES_TO_REMOVE` (tab, CR, LF). -/
def removeUnsafeBytes (l : List Char) : List Char :=
  l.filter fun c => !(c == '\t' || c == '\r' || c == '\n')

/-- Characters allowed in a URL scheme (`urllib.parse.scheme_chars`). -/
def isSchemeChar (c : Char) : Bool :=
  c.isAlpha || c.isDigit || c == '+' || c == '-' || c == '.'

/-- Scheme-splitting step of `urlsplit`: returns `(scheme, rest)`; the scheme
is empty (and the input untouched) when no well-formed scheme prefix exists. -/
def splitScheme (l : List Char) : List Char × List Char :=
  match findIdxOf? ':' l with
  | some i =>
    match l with
    | [] => ([], l)
    | c0 :: _ =>
      if i != 0 && c0.isAlpha && (l.take i).all isSchemeChar then
        ((l.take i).map Char.toLower, l.drop (i + 1))
      else
        ([], l)
  | none => ([], l)

/-- Python `_splitnetloc(url, 2)` applied after the leading `//` was dropped:
the netloc runs until the first `/`, `?` or `#`. -/
def splitNetloc (l : List Char) : List Char × List Char :=
  (l.takeWhile (fun c => !(c == '/' || c == '?' || c == '#')),
   l.dropWhile (fun c => !(c == '/' || c == '?' || c == '#')))

structure UrlSplit where
  scheme : List Char
  netloc : List Char
  pathPart : List Char
  query : List Char
  fragment : List Char
deriving DecidableEq

/-- CPython `urllib.parse.urlsplit` (with `allow_fragments=True`). -/
def urlsplitE (url : String) : Except String UrlSplit :=
  let u0 := removeUnsafeBytes (stripC0 url.data)
  let su := splitScheme u0
  let nu := if ['/', '/'].isPrefixOf su.2 then splitNetloc (su.2.drop 2)
            else ([], su.2)
  if (nu.1.contains '[' && !(nu.1.contains ']')) ||
     (nu.1.contains ']' && !(nu.1.contains '[')) then
    .error "Invalid IPv6 URL"
  else
    let uf := splitFirst '#' nu.2
    let pq := splitFirst '?' uf.1
    .ok ⟨su.1, nu.1, pq.1, pq.2, uf.2⟩

/-- Schemes for which `urlparse` splits `;`-parameters (`uses_params`). -/
def usesParamsSchemes : List (List Char) :=
  ["", "ftp", "hdl", "prospero", "http", "imap", "https", "shttp", "rtsp",
   "rtspu", "sip", "sips", "mms", "sftp", "tel"].map String.data

/-- Python `_splitparams(url)`: split the `;`-parameters off the path. -/
def splitparams (l : List Char) : List Char × List Char :=
  if l.contains '/' then
    match rfindIdxOf? '/' l with
    | some r =>
      match (l.drop r).findIdx? (· == ';') with
      | some j => (l.take (r + j), l.drop (r + j + 1))
      | none => (l, [])
    | none => (l, [])
  else
    match findIdxOf? ';' l with
    | some i => (l.take i, l.drop (i + 1))
    | none => (l, [])

/-- CPython `urllib.parse.urlparse` restricted to the fields the repository
reads (`netloc`, `path`, `query`); `params` are split off the path exactly
when the scheme is in `uses_params` and a `;` is present. -/
def urlparseE (url : String) : Except String UrlSplit :=
  match urlsplitE url with
  | .error e => .error e
  | .ok sp =>
    if usesParamsSchemes.contains sp.scheme && sp.pathPart.contains ';' then
      .ok { sp with pathPart := (splitparams sp.pathPart).1 }
    else
      .ok sp

/-! ### Rule-based heuristic scorer (`PhishingPredictor._apply_heuristics`)

Each block of the Python function adds a non-negative increment to `score`;
the final value is `min(score, 1.0)`.  The only statement in the function
that can raise is `urlparse(url)` (it is not wrapped in a `try`), so the
scorer is an `Except`: on an unparsable URL the `ValueError` propagates to
`predict`'s outer handler. -/

/-- Keyword list of `_apply_heuristics` (15 entries; distinct from the
20-entry list of the advanced extractor). -/
def phishingKeywords : List String :=
  ["verify", "account", "update", "secure", "login", "signin",
   "banking", "confirm", "suspended", "locked", "unusual",
   "activity", "alert", "security", "notification"]

/-- Python `sum(1 for keyword in phishing_keywords if keyword in url_lower)`. -/
def heuristicKeywordCount (url : String) : Nat :=
  (phishingKeywords.map fun k => if isSub k.data (lowerData url) then 1 else 0).sum

def keywordScore (url : String) : ℚ :=
  if heuristicKeywordCount url ≥ 3 then 4/10
  else if heuristicKeywordCount url ≥ 2 then 25/100
  else if heuristicKeywordCount url ≥ 1 then 1/10
  else 0

/-- One step of the lenient IPv4 pattern: consume exactly `a` digits. -/
def chopDigits (a : Nat) (l : List Char) : Option (List Char) :=
  if (l.take a).length == a && (l.take a).all Char.isDigit then some (l.drop a)
  else none

def chopDot : List Char → Option (List Char)
  | '.' :: xs => some xs
  | _ => none

/-- Match of `\d{1,3}\.\d{1,3}\.\d{1,3}\.\d{1,3}` anchored at the head of `l`;
with a backtracking engine, `re.search` succeeds iff some choice of the four
repetition counts matches at some start position. -/
def ipFrom (l : List Char) : Bool :=
  [1, 2, 3].any fun a => [1, 2, 3].any fun b => [1, 2, 3].any fun c =>
    [1, 2, 3].any fun d =>
      (((((((chopDigits a l).bind chopDot).bind (chopDigits b)).bind
        chopDot).bind (chopDigits c)).bind chopDot).bind (chopDigits d)).isSome

/-- Python `re.search(r'\d{1,3}\.\d{1,3}\.\d{1,3}\.\d{1,3}', url)` (the
lenient, unbounded-octet variant used by the predictor and the advanced
extractor). -/
def hasIPAddressLenient (url : String) : Bool :=
  url.data.tails.any ipFrom

def ipScore (url : String) : ℚ :=
  if hasIPAddressLenient url then 5/10 else 0

/-- Suspicious-TLD list of `_apply_heuristics`. -/
def heuristicSuspiciousTlds : List String :=
  [".tk", ".ml", ".ga", ".cf", ".gq", ".xyz", ".top"]

def tldScore (url : String) : ℚ :=
  if heuristicSuspiciousTlds.any (fun t => t.data.isSuffixOf (lowerData url))
  then 3/10 else 0

def atSymbolScore (url : String) : ℚ :=
  if url.data.contains '@' then 4/10 else 0

def hyphenScore (netloc : List Char) : ℚ :=
  if netloc.count '-' ≥ 3 then 3/10
  else if netloc.count '-' ≥ 2 then 2/10
  else 0

/-- Brand allow-list of the impersonation rule (`legitimate_domains`). -/
def legitimateDomains : List String :=
  ["google.com", "facebook.com", "amazon.com", "paypal.com",
   "microsoft.com", "apple.com", "netflix.com", "instagram.com",
   "twitter.com", "linkedin.com", "github.com", "bankofamerica.com",
   "chase.com", "wellsfargo.com", "citibank.com"]

/-- Condition under which the impersonation rule fires for one brand: the
brand string occurs in the lowercased URL but the (case-preserved) netloc
does not end with it. -/
def impersonates (url : String) (netloc : List Char) (d : String) : Bool :=
  isSub d.data (lowerData url) && !(d.data.isSuffixOf netloc)

/-- The `for legit_domain in legitimate_domains: ... score += 0.6; break`
loop: `List.find?` returns the first brand that fires, and the increment is
added once. -/
def impersonationBonus (url : String) (netloc : List Char) : ℚ :=
  match legitimateDomains.find? (impersonates url netloc) with
  | some _ => 6/10
  | none => 0

def lengthScore (url : String) : ℚ :=
  if url.data.length > 100 then 2/10 else 0

def noHttpsScore (url : String) : ℚ :=
  if !("https://".data.isPrefixOf url.data) &&
     (["login", "signin", "account", "secure"].any fun k =>
       isSub k.data (lowerData url))
  then 2/10 else 0

/-- Sum of all increments of `_apply_heuristics` for a given netloc. -/
def heuristicSum (url : String) (netloc : List Char) : ℚ :=
  keywordScore url + ipScore url + tldScore url + atSymbolScore url +
    hyphenScore netloc + impersonationBonus url netloc +
    lengthScore url + noHttpsScore url

/-- Python `PhishingPredictor._apply_heuristics`: clamped rule score, or the
propagated `ValueError` of `urlparse`. -/
def applyHeuristics (url : String) : Except String ℚ :=
  match urlparseE url with
  | .error e => .error e
  | .ok pr => .ok (min (heuristicSum url pr.netloc) 1)

/-! ### Decision layer (`PhishingPredictor.predict`, lines 84–101) -/

/-- Python `PhishingPredictor._get_risk_level`. -/
def riskLevel (p : ℚ) : String :=
  if p < 3/10 then "low"
  else if p < 7/10 then "medium"
  else "high"

structure Decision where
  label : String
  confidence : ℚ
  probability : ℚ
  risk_level : String
  is_safe : Bool
deriving DecidableEq

/-- Lines 85–100 of `predictor.py`: `is_phishing = probability > 0.5`, the
label, the raw (pre-rounding) confidence, the risk level and the safety
flag. -/
def decision (p : ℚ) : Decision :=
  { label := if p > 1/2 then "phishing" else "legitimate"
    confidence := if p > 1/2 then p else 1 - p
    probability := p
    risk_level := riskLevel p
    is_safe := !(decide (p > 1/2)) }

/-- Python `round(x, 4)` (round-half-to-even), on exact rationals: the
scaled value `x * 10⁴` goes to the nearest integer, ties to the even one. -/
def round4 (x : ℚ) : ℚ :=
  (if x * 10000 - ⌊x * 10000⌋ < 1/2 then (⌊x * 10000⌋ : ℚ)
   else if 1/2 < x * 10000 - ⌊x * 10000⌋ then (⌊x * 10000⌋ : ℚ) + 1
   else if ⌊x * 10000⌋ % 2 = 0 then (⌊x * 10000⌋ : ℚ)
   else (⌊x * 10000⌋ : ℚ) + 1) / 10000

/-! ### Character statistics (`advanced_feature_extractor.py`) -/

/-- One summand of `_calculate_shannon_entropy`: the Python loop body
`if probability > 0: entropy -= probability * math.log2(probability)` for a
character occurring `k` times in a text of length `n`. -/
noncomputable def entTerm (n k : ℕ) : ℝ :=
  if (k : ℝ) / n > 0 then -((k : ℝ) / n * Real.logb 2 ((k : ℝ) / n)) else 0

/-- Python `_calculate_shannon_entropy` (`math.log2` variant; `features.py`
uses `np.log2`, the same function): 0.0 on the empty string, otherwise the
sum over the distinct characters (`Counter(text)`) of the entropy terms. -/
noncomputable def shannonEntropy (l : List Char) : ℝ :=
  if l = [] then 0 else ∑ c ∈ l.toFinset, entTerm l.length (l.count c)

def vowelChars : List Char := "aeiouAEIOU".data

def consonantChars : List Char := "bcdfghjklmnpqrstvwxyzBCDFGHJKLMNPQRSTVWXYZ".data

/-- Python `_vowel_consonant_ratio`. -/
noncomputable def vowelConsonantRatio (l : List Char) : ℝ :=
  let v := (l.filter fun c => vowelChars.contains c).length
  let k := (l.filter fun c => consonantChars.contains c).length
  if k = 0 then 0 else (v : ℝ) / k

/-- Python `_digit_letter_ratio` (ASCII model of `isdigit`/`isalpha`). -/
noncomputable def digitLetterRatio (l : List Char) : ℝ :=
  let d := (l.filter Char.isDigit).length
  let a := (l.filter Char.isAlpha).length
  if a = 0 then 0 else (d : ℝ) / a

/-- Python `_special_char_ratio`. -/
noncomputable def specialCharRatio (l : List Char) : ℝ :=
  if l.length = 0 then 0
  else ((l.filter fun c => !(c.isAlpha || c.isDigit)).length : ℝ) / l.length

/-- Number of adjacent positions holding different characters. -/
def adjacentChanges : List Char → Nat
  | a :: b :: rest => (if a = b then 0 else 1) + adjacentChanges (b :: rest)
  | _ => 0

/-- Python `_url_randomness_score`. -/
noncomputable def urlRandomnessScore (l : List Char) : ℝ :=
  let an := l.filter fun c => c.isAlpha || c.isDigit
  if an.length < 2 then 0 else (adjacentChanges an : ℝ) / ((an.length : ℝ) - 1)

/-! ### Advanced extractor (`backend/app/advanced_feature_extractor.py`) -/

/-- The 20-entry keyword list of `AdvancedFeatureExtractor`. -/
def suspiciousKeywords : List String :=
  ["login", "signin", "verify", "secure", "account", "update",
   "banking", "confirm", "suspended", "locked", "unusual",
   "activity", "alert", "security", "notification", "password",
   "credential", "validate", "authenticate", "billing"]

def advSuspiciousTlds : List String :=
  [".tk", ".ml", ".ga", ".cf", ".gq", ".xyz", ".top", ".work",
   ".click", ".link", ".download", ".racing", ".win"]

def trustedTlds : List String :=
  [".com", ".org", ".net", ".edu", ".gov", ".mil"]

/-- Feature 7 of the advanced extractor:
`sum(1 for keyword in self.suspicious_keywords if keyword in url_lower)`. -/
def suspiciousKeywordCount (url : String) : Nat :=
  (suspiciousKeywords.map fun k => if isSub k.data (lowerData url) then 1 else 0).sum

/-- The 8 lexical features (`_extract_lexical_features`). -/
noncomputable def lexicalFeatures (url : String) : List ℝ :=
  [(url.data.length : ℝ), (url.data.count '.' : ℝ), (url.data.count '/' : ℝ),
   (url.data.count '-' : ℝ), ((url.data.filter Char.isDigit).length : ℝ),
   (if hasIPAddressLenient url then 1 else 0),
   (suspiciousKeywordCount url : ℝ),
   (if "https://".data.isPrefixOf url.data then 1 else 0)]

/-- The 5 statistical features (`_extract_statistical_features`). -/
noncomputable def statisticalFeatures (url : String) : List ℝ :=
  [shannonEntropy url.data, vowelConsonantRatio url.data,
   digitLetterRatio url.data, specialCharRatio url.data,
   urlRandomnessScore url.data]

/-! ### Model of `tldextract.extract` -/

/-- Suffix of `l` after the last occurrence of `c` (`str.rpartition(c)[-1]`). -/
def afterLast (c : Char) (l : List Char) : List Char :=
  match rfindIdxOf? c l with
  | some i => l.drop (i + 1)
  | none => l

/-- Index of the first occurrence of the two-character substring `//`. -/
def findDoubleSlash (l : List Char) : Option Nat :=
  l.tails.findIdx? fun t => ['/', '/'].isPrefixOf t

/-- tldextract `_schemeless_url`. -/
def schemelessUrl (l : List Char) : List Char :=
  match findDoubleSlash l with
  | none => l
  | some ds =>
    if ds == 0 then l.drop 2
    else if ds < 2 then l
    else if (l.get? (ds - 1) == some ':') && (l.take (ds - 1)).all isSchemeChar
    then l.drop (ds + 2)
    else l

/-- Python `str.strip()` (whitespace, both ends). -/
def stripWs (l : List Char) : List Char :=
  ((l.dropWhile Char.isWhitespace).reverse.dropWhile Char.isWhitespace).reverse

/-- Python `str.rstrip(".。．｡")`. -/
def rstripDots (l : List Char) : List Char :=
  (l.reverse.dropWhile fun c => c == '.' || c == '。' || c == '．' || c == '｡').reverse

/-- tldextract `lenient_netloc`. -/
def lenientNetloc (url : String) : List Char :=
  let au := afterLast '@'
    (splitFirst '#' (splitFirst '?' (splitFirst '/' (schemelessUrl url.data)).1).1).1
  match au, findIdxOf? ']' au with
  | '[' :: _, some i => au.take (i + 1)
  | _, _ => rstripDots (stripWs (splitFirst ':' au).1)

/-- Strict dotted-quad octet (`[0-9]|[1-9][0-9]|1[0-9]{2}|2[0-4][0-9]|25[0-5]`). -/
def octetStrict : List Char → Bool
  | [a] => a.isDigit
  | [a, b] => a.isDigit && b.isDigit && a != '0'
  | [a, b, c] => a.isDigit && b.isDigit && c.isDigit &&
      (a == '1' || (a == '2' && (b.toNat ≤ '4'.toNat || (b == '5' && c.toNat ≤ '5'.toNat))))
  | _ => false

/-- tldextract `looks_like_ip` (full-string dotted-quad). -/
def looksLikeIPv4 (l : List Char) : Bool :=
  let parts := l.splitOn '.'
  parts.length == 4 && parts.all octetStrict

/-- Python `'.'.join(parts)`. -/
def joinDots (ls : List (List Char)) : List Char :=
  (ls.intersperse ['.']).flatten

/-- Abbreviated snapshot of the public-suffix list consulted by `tldextract`
(the full list is external data shipped with the library; only common
suffixes are included — the claims touching `tldextract` exercise inputs
with an empty host, which no snapshot entry matches). -/
def pslSnapshot : List (List Char) :=
  ["com", "org", "net", "edu", "gov", "mil", "uk", "co.uk", "io", "xyz",
   "tk", "ml", "ga", "cf", "gq", "top"].map String.data

structure TldParts where
  subdomain : List Char
  domain : List Char
  suffix : List Char
deriving DecidableEq

/-- tldextract `extract`: split the lenient netloc into labels and find the
longest public-suffix match (wildcard/private PSL rules omitted); IP-shaped
hosts yield `(subdomain, domain, suffix) = ('', host, '')`. -/
def tldExtract (url : String) : TldParts :=
  let netloc := lenientNetloc url
  if looksLikeIPv4 netloc then ⟨[], netloc, []⟩
  else
    let labels := netloc.splitOn '.'
    let n := labels.length
    let si := ((List.range n).find? fun i =>
      pslSnapshot.contains ((joinDots (labels.drop i)).map Char.toLower)).getD n
    let notSuffix := labels.take si
    ⟨joinDots notSuffix.dropLast, notSuffix.getLastD [], joinDots (labels.drop si)⟩

/-- TLD-category feature: `0` trusted, `2` suspicious, `1` neutral, computed
from `tld = "." + extracted.suffix`. -/
def tldCategoryN (suffix : List Char) : Nat :=
  let tld := '.' :: suffix
  if trustedTlds.any (fun t => t.data == tld) then 0
  else if advSuspiciousTlds.any (fun s => s.data.isSuffixOf tld) then 2
  else 1

/-- The 7 domain features (`_extract_domain_features`): the whole block is a
`try`/`except` whose only raising statement is `urlparse`; on a raise the
block is replaced by seven zeros. -/
noncomputable def domainFeatures (url : String) : List ℝ :=
  match urlparseE url with
  | .error _ => [0, 0, 0, 0, 0, 0, 0]
  | .ok pr =>
    let ex := tldExtract url
    [(ex.domain.length : ℝ),
     (if ex.subdomain ≠ [] then ((ex.subdomain.splitOn '.').length : ℝ) else 0),
     (tldCategoryN ex.suffix : ℝ),
     (if ex.domain.any Char.isDigit then 1 else 0),
     shannonEntropy ex.domain,
     (pr.pathPart.length : ℝ),
     (pr.query.length : ℝ)]

/-- Python `AdvancedFeatureExtractor.extract_features`: the 20-entry vector. -/
noncomputable def advancedExtract (url : String) : List ℝ :=
  lexicalFeatures url ++ statisticalFeatures url ++ domainFeatures url

/-! ### Basic extractor (`backend/app/features.py`, used by `PhishingPredictor`) -/

/-- One strict octet consumed from the head of `l`. -/
def chopOctet (k : Nat) (l : List Char) : Option (List Char) :=
  if (l.take k).length == k && octetStrict (l.take k) then some (l.drop k)
  else none

/-- Remainders after consuming one strict octet (1, 2 or 3 characters). -/
def octetRests (l : List Char) : List (List Char) :=
  [1, 2, 3].filterMap fun k => chopOctet k l

/-- Match of the strict dotted-quad regex anchored at the head of `l`:
with a backtracking engine the search succeeds iff some alternative choice
matches. -/
def ipStrictFrom (l : List Char) : Bool :=
  (octetRests l).any fun r1 =>
    (chopDot r1).elim false fun r1' =>
      (octetRests r1').any fun r2 =>
        (chopDot r2).elim false fun r2' =>
          (octetRests r2').any fun r3 =>
            (chopDot r3).elim false fun r3' =>
              !(octetRests r3').isEmpty

/-- Python `re.search` of the strict (octet-bounded) IPv4 pattern of
`features.py`. -/
def hasIPAddressStrict (url : String) : Bool :=
  url.data.tails.any ipStrictFrom

/-- Python `URLFeatureExtractor.extract_features`: 13 structural features, 6
parse-derived features (zeroed when `urlparse` raises) and the entropy. -/
noncomputable def basicExtract (url : String) : List ℝ :=
  let u := url.data
  let lex : List ℝ :=
    [(u.length : ℝ), (u.count '.' : ℝ), (u.count '-' : ℝ), (u.count '_' : ℝ),
     (u.count '/' : ℝ), (u.count '?' : ℝ), (u.count '=' : ℝ), (u.count '@' : ℝ),
     (u.count '&' : ℝ), ((u.filter Char.isDigit).length : ℝ),
     ((u.filter fun c => !(c.isAlpha || c.isDigit)).length : ℝ),
     (if hasIPAddressStrict url then 1 else 0),
     (if "https://".data.isPrefixOf u then 1 else 0)]
  let dom : List ℝ :=
    match urlparseE url with
    | .error _ => [0, 0, 0, 0, 0, 0]
    | .ok pr =>
      let parts := pr.netloc.splitOn '.'
      let domain := if parts.length ≥ 2 then joinDots (parts.drop (parts.length - 2))
                    else pr.netloc
      let subdomain := if parts.length > 2 then joinDots (parts.take (parts.length - 2))
                       else []
      [(domain.length : ℝ), (subdomain.length : ℝ), (pr.pathPart.length : ℝ),
       (if parts.length > 2 then ((parts.length - 2 : ℕ) : ℝ) else 0),
       (pr.netloc.length : ℝ),
       (if pr.query ≠ [] then ((pr.query.splitOn '&').length : ℝ) else 0)]
  lex ++ dom ++ [shannonEntropy u]

/-! ### Full `PhishingPredictor.predict`

The trained model is an external black box; it is passed in as an oracle
`M : List ℝ → Except String ℚ` (a raising model call is an `.error`).  The
returned Python dict is modelled as an association list in construction
order.  A non-string `url` is not representable in the typed embedding;
Python's falsy test `not url` is the empty-string test.  `round(x, 4)` is
applied to the reported confidence and probability as in the source. -/

inductive JVal where
  | s (v : String)
  | q (v : ℚ)
  | b (v : Bool)
deriving DecidableEq

/-- The `except` branch of `predict` (lines 103–109 of `predictor.py`). -/
def errorDict (url msg : String) : List (String × JVal) :=
  [("url", .s url), ("error", .s msg), ("prediction", .s "error"),
   ("confidence", .q 0)]

/-- The success return of `predict` (lines 94–101 of `predictor.py`) for a
blended probability `p`. -/
def successDict (url : String) (p : ℚ) : List (String × JVal) :=
  [("url", .s url), ("prediction", .s (decision p).label),
   ("confidence", .q (round4 (decision p).confidence)),
   ("probability", .q (round4 p)),
   ("risk_level", .s (decision p).risk_level),
   ("is_safe", .b (decision p).is_safe)]

/-- Python `PhishingPredictor.predict`. -/
noncomputable def predict (M : List ℝ → Except String ℚ) (url : String) :
    List (String × JVal) :=
  if url.data = [] then errorDict url "Invalid URL provided"
  else
    match M (basicExtract url) with
    | .error e => errorDict url e
    | .ok m =>
      match applyHeuristics url with
      | .error e => errorDict url e
      | .ok h => successDict url (6/10 * m + 4/10 * h)

/-! ### Reputation heuristics (`ml_engine/advanced_feature_extractor.py`) -/

def wellKnownBrands : List String :=
  ["google", "facebook", "amazon", "microsoft", "apple",
   "github", "stackoverflow", "wikipedia"]

def yearTokens : List String :=
  ["2020", "2021", "2022", "2023", "2024"]

/-- Python `any(known in domain.lower() for known in well_known)`. -/
def wellKnownHit (domain : String) : Bool :=
  wellKnownBrands.any fun k => isSub k.data (lowerData domain)

/-- Python `any(year in url for year in [...])` (case-sensitive, raw URL). -/
def yearHit (url : String) : Bool :=
  yearTokens.any fun y => isSub y.data url.data

/-- Python `_estimate_domain_age`: `age_score` starts at the 0.5 default and
the `if`/`elif` chain overwrites it with the first matching rule's value. -/
noncomputable def estimateDomainAge (domain url : String) : ℝ :=
  if wellKnownHit domain then 1
  else if yearHit url then 0.2
  else if domain.data.length ≤ 4 then 0.3
  else if shannonEntropy domain.data > 4 then 0.25
  else 0.5

/-! ### Entropy lemmas -/

lemma entTerm_eq (n k : ℕ) (hk : 0 < k) (hn : 0 < n) :
    entTerm n k = -((k : ℝ) / n * Real.logb 2 ((k : ℝ) / n)) := by
  have : (0 : ℝ) < (k : ℝ) / n := by positivity
  simp [entTerm, this]

lemma entTerm_nonneg (n k : ℕ) (hkn : k ≤ n) : 0 ≤ entTerm n k := by
  unfold entTerm
  split
  · rename_i h
    have hn : (0 : ℝ) < n := by
      rcases Nat.eq_zero_or_pos n with rfl | hn
      · simp at h
      · exact_mod_cast hn
    have h1 : (k : ℝ) / n ≤ 1 := by
      rw [div_le_one hn]
      exact_mod_cast hkn
    have hlog : Real.logb 2 ((k : ℝ) / n) ≤ 0 :=
      Real.logb_nonpos (by norm_num) (le_of_lt h) h1
    nlinarith [le_of_lt h]
  · exact le_refl 0

lemma shannonEntropy_nil : shannonEntropy [] = 0 := by
  simp [shannonEntropy]

lemma shannonEntropy_nonneg (l : List Char) : 0 ≤ shannonEntropy l := by
  unfold shannonEntropy
  split
  · exact le_refl 0
  · exact Finset.sum_nonneg fun c _ => entTerm_nonneg _ _ (List.count_le_length c l)

lemma count_sum_toFinset (l : List Char) :
    ∑ c ∈ l.toFinset, (l.count c : ℝ) = (l.length : ℝ) := by
  have h : ∑ c ∈ l.toFinset, l.count c = l.length := by
    have h0 := Multiset.toFinset_sum_count_eq (l : Multiset Char)
    simp only [Multiset.coe_count, Multiset.coe_card, List.toFinset_coe] at h0
    exact h0
  exact_mod_cast congrArg (Nat.cast : ℕ → ℝ) h

lemma shannonEntropy_eq_sum (l : List Char) (hne : l ≠ []) :
    shannonEntropy l = ∑ c ∈ l.toFinset,
      -((l.count c : ℝ) / l.length * Real.logb 2 ((l.count c : ℝ) / l.length)) := by
  unfold shannonEntropy
  rw [if_neg hne]
  refine Finset.sum_congr rfl fun c hc => ?_
  exact entTerm_eq _ _ (List.count_pos_iff.2 (List.mem_toFinset.1 hc))
    (List.length_pos.2 hne)

lemma shannonEntropy_le_logb_card (l : List Char) :
    shannonEntropy l ≤ Real.logb 2 (l.toFinset.card) := by
  rcases eq_or_ne l [] with rfl | hne
  · simp [shannonEntropy, Real.logb_zero]
  have hn : (0 : ℝ) < l.length := by
    exact_mod_cast List.length_pos.2 hne
  set w : Char → ℝ := fun c => (l.count c : ℝ) / l.length with hw
  have hw0 : ∀ c ∈ l.toFinset, 0 < w c := fun c hc => by
    have : 0 < l.count c := List.count_pos_iff.2 (List.mem_toFinset.1 hc)
    have : (0 : ℝ) < l.count c := by exact_mod_cast this
    exact div_pos this hn
  have hw1 : ∑ c ∈ l.toFinset, w c = 1 := by
    simp only [hw, ← Finset.sum_div]
    rw [count_sum_toFinset, div_self (ne_of_gt hn)]
  have hjensen := (strictConcaveOn_log_Ioi.concaveOn).le_map_sum
    (t := l.toFinset) (w := w) (p := fun c => (w c)⁻¹)
    (fun c hc => le_of_lt (hw0 c hc)) hw1
    (fun c hc => Set.mem_Ioi.2 (inv_pos.2 (hw0 c hc)))
  have hrhs : ∑ c ∈ l.toFinset, w c • (w c)⁻¹ = (l.toFinset.card : ℝ) := by
    have hone : ∀ c ∈ l.toFinset, w c • (w c)⁻¹ = (1 : ℝ) := fun c hc => by
      rw [smul_eq_mul, mul_inv_cancel₀ (ne_of_gt (hw0 c hc))]
    rw [Finset.sum_congr rfl hone, Finset.sum_const, nsmul_eq_mul, mul_one]
  have hlhs : ∑ c ∈ l.toFinset, w c • Real.log (w c)⁻¹ =
      ∑ c ∈ l.toFinset, -(w c * Real.log (w c)) := by
    refine Finset.sum_congr rfl fun c hc => ?_
    rw [smul_eq_mul, Real.log_inv, mul_neg]
  rw [hrhs, hlhs] at hjensen
  have hlog2 : (0 : ℝ) < Real.log 2 := Real.log_pos (by norm_num)
  have hmain : shannonEntropy l =
      (∑ c ∈ l.toFinset, -(w c * Real.log (w c))) / Real.log 2 := by
    rw [shannonEntropy_eq_sum l hne, Finset.sum_div]
    refine Finset.sum_congr rfl fun c hc => ?_
    show -(w c * Real.logb 2 (w c)) = -(w c * Real.log (w c)) / Real.log 2
    rw [Real.logb, neg_div, mul_div_assoc]
  rw [hmain, Real.logb]
  exact (div_le_div_iff_of_pos_right hlog2).2 hjensen

lemma shannonEntropy_aaaa : shannonEntropy "aaaa".data = 0 := by
  have hfin : "aaaa".data.toFinset = {'a'} := by decide
  have hcount : "aaaa".data.count 'a' = 4 := by decide
  have hlen : "aaaa".data.length = 4 := by decide
  rw [shannonEntropy, if_neg (by decide), hfin, Finset.sum_singleton, hcount, hlen,
    entTerm_eq 4 4 (by norm_num) (by norm_num)]
  norm_num

lemma shannonEntropy_ab : shannonEntropy "ab".data = 1 := by
  have hfin : "ab".data.toFinset = {'a', 'b'} := by decide
  have hca : "ab".data.count 'a' = 1 := by decide
  have hcb : "ab".data.count 'b' = 1 := by decide
  have hlen : "ab".data.length = 2 := by decide
  have hterm : entTerm 2 1 = 1 / 2 := by
    rw [entTerm_eq 2 1 (by norm_num) (by norm_num)]
    have h12 : ((1 : ℕ) : ℝ) / ((2 : ℕ) : ℝ) = (2 : ℝ)⁻¹ := by norm_num
    rw [h12, Real.logb_inv, Real.logb_self_eq_one (by norm_num)]
    norm_num
  rw [shannonEntropy, if_neg (by decide), hfin,
    Finset.sum_insert (by decide), Finset.sum_singleton, hca, hcb, hlen, hterm]
  norm_num

/-! ### Heuristic-scorer lemmas -/

lemma keywordScore_nonneg (url : String) : 0 ≤ keywordScore url := by
  unfold keywordScore; split_ifs <;> norm_num

lemma ipScore_nonneg (url : String) : 0 ≤ ipScore url := by
  unfold ipScore; split_ifs <;> norm_num

lemma tldScore_nonneg (url : String) : 0 ≤ tldScore url := by
  unfold tldScore; split_ifs <;> norm_num

lemma atSymbolScore_nonneg (url : String) : 0 ≤ atSymbolScore url := by
  unfold atSymbolScore; split_ifs <;> norm_num

lemma hyphenScore_nonneg (nl : List Char) : 0 ≤ hyphenScore nl := by
  unfold hyphenScore; split_ifs <;> norm_num

lemma impersonationBonus_nonneg (url : String) (nl : List Char) :
    0 ≤ impersonationBonus url nl := by
  unfold impersonationBonus
  rcases legitimateDomains.find? (impersonates url nl) with _ | d <;> norm_num

lemma lengthScore_nonneg (url : String) : 0 ≤ lengthScore url := by
  unfold lengthScore; split_ifs <;> norm_num

lemma noHttpsScore_nonneg (url : String) : 0 ≤ noHttpsScore url := by
  unfold noHttpsScore; split_ifs <;> norm_num

lemma heuristicSum_nonneg (url : String) (nl : List Char) :
    0 ≤ heuristicSum url nl := by
  unfold heuristicSum
  have h1 := keywordScore_nonneg url
  have h2 := ipScore_nonneg url
  have h3 := tldScore_nonneg url
  have h4 := atSymbolScore_nonneg url
  have h5 := hyphenScore_nonneg nl
  have h6 := impersonationBonus_nonneg url nl
  have h7 := lengthScore_nonneg url
  have h8 := noHttpsScore_nonneg url
  linarith

lemma impersonationBonus_of_any (url : String) (nl : List Char)
    (h : ∃ d ∈ legitimateDomains, impersonates url nl d = true) :
    impersonationBonus url nl = 6/10 := by
  unfold impersonationBonus
  rcases hf : legitimateDomains.find? (impersonates url nl) with _ | d
  · rcases h with ⟨d, hd, hp⟩
    exact absurd hp (by simpa using List.find?_eq_none.1 hf d hd)
  · rfl

lemma impersonationBonus_of_none (url : String) (nl : List Char)
    (h : ¬ ∃ d ∈ legitimateDomains, impersonates url nl d = true) :
    impersonationBonus url nl = 0 := by
  unfold impersonationBonus
  rcases hf : legitimateDomains.find? (impersonates url nl) with _ | d
  · rfl
  · exact absurd ⟨d, List.mem_of_find?_eq_some hf, List.find?_some hf⟩ h

lemma applyHeuristics_ok (url : String) (pr : UrlSplit)
    (hp : urlparseE url = .ok pr) :
    applyHeuristics url = .ok (min (heuristicSum url pr.netloc) 1) := by
  unfold applyHeuristics
  rw [hp]

lemma applyHeuristics_bounds (url : String) (q : ℚ)
    (h : applyHeuristics url = .ok q) : 0 ≤ q ∧ q ≤ 1 := by
  unfold applyHeuristics at h
  rcases hp : urlparseE url with e | pr <;> rw [hp] at h
  · cases h
  · cases h
    exact ⟨le_min (heuristicSum_nonneg url _) zero_le_one, min_le_right _ _⟩

/-! ### Decision-layer lemmas -/

lemma round4_ge_half (x : ℚ) (hx : 1/2 ≤ x) : 1/2 ≤ round4 x := by
  unfold round4
  have h5000 : (5000 : ℤ) ≤ ⌊x * 10000⌋ := by
    rw [Int.le_floor]
    push_cast
    linarith
  have hcast : (5000 : ℚ) ≤ (⌊x * 10000⌋ : ℚ) := by exact_mod_cast h5000
  split_ifs <;> (rw [le_div_iff₀ (by norm_num : (0:ℚ) < 10000)]; linarith)

/-! ### Claim theorems -/

/-- Claim C1 (corrected), counterexample: at blended probability exactly 0.5
the decision layer of `PhishingPredictor.predict` does NOT label the result
"phishing" — the source tests `probability > 0.5` strictly, so 0.5 gets the
label "legitimate" (and confidence 0.5). -/
theorem c1_counterexample :
    ((1 : ℚ)/2 ≥ 1/2) ∧ (decision (1/2)).label ≠ "phishing" ∧
      (decision (1/2)).label = "legitimate" := by
  refine ⟨le_refl _, ?_, ?_⟩ <;> simp [decision]

/-- Claim C1 (amended): for every blended probability `p ∈ [0,1]`, the
decision layer labels the result "phishing" exactly when `p > 0.5` and
"legitimate" otherwise, and sets (pre-rounding) confidence to `p` when the
label is "phishing" and to `1 − p` otherwise; a probability of exactly 0.5
yields the label "legitimate". -/
theorem c1_decision_layer (p : ℚ) (_h0 : 0 ≤ p) (_h1 : p ≤ 1) :
    ((decision p).label = "phishing" ↔ 1/2 < p) ∧
    ((decision p).label = "legitimate" ↔ p ≤ 1/2) ∧
    (1/2 < p → (decision p).confidence = p) ∧
    (p ≤ 1/2 → (decision p).confidence = 1 - p) ∧
    (decision (1/2)).label = "legitimate" := by
  have hhalf : (decision (1/2 : ℚ)).label = "legitimate" := by
    show (if (1:ℚ)/2 > 1/2 then "phishing" else "legitimate") = "legitimate"
    exact if_neg (lt_irrefl _)
  by_cases hp : (1 : ℚ)/2 < p
  · have hl : (decision p).label = "phishing" := by
      show (if p > 1/2 then "phishing" else "legitimate") = "phishing"
      exact if_pos hp
    have hc : (decision p).confidence = p := by
      show (if p > 1/2 then p else 1 - p) = p
      exact if_pos hp
    refine ⟨⟨fun _ => hp, fun _ => hl⟩, ⟨fun h => ?_, fun h => absurd hp (not_lt.2 h)⟩,
      fun _ => hc, fun h => absurd hp (not_lt.2 h), hhalf⟩
    rw [hl] at h
    exact absurd h (by decide)
  · have hl : (decision p).label = "legitimate" := by
      show (if p > 1/2 then "phishing" else "legitimate") = "legitimate"
      exact if_neg hp
    have hc : (decision p).confidence = 1 - p := by
      show (if p > 1/2 then p else 1 - p) = 1 - p
      exact if_neg hp
    refine ⟨⟨fun h => ?_, fun h => absurd h hp⟩, ⟨fun _ => not_lt.1 hp, fun _ => hl⟩,
      fun h => absurd h hp, fun _ => hc, hhalf⟩
    rw [hl] at h
    exact absurd h (by decide)

/-- Witness for C1 at `p = 3/4`. -/
theorem c1_witness :
    (0 : ℚ) ≤ 3/4 ∧ (3:ℚ)/4 ≤ 1 ∧ (decision (3/4)).label = "phishing" := by
  have h := c1_decision_layer (3/4) (by norm_num) (by norm_num)
  exact ⟨by norm_num, by norm_num, h.1.2 (by norm_num)⟩

/-- Claim C7 (confirmed): `_get_risk_level` returns "low" exactly when
`p < 0.3`, "medium" exactly when `0.3 ≤ p < 0.7`, "high" exactly when
`p ≥ 0.7`; in particular 0.29 → "low", 0.3 → "medium", 0.69 → "medium",
0.7 → "high". -/
theorem c7_risk_tiering (p : ℚ) :
    ((riskLevel p = "low" ↔ p < 3/10) ∧
     (riskLevel p = "medium" ↔ 3/10 ≤ p ∧ p < 7/10) ∧
     (riskLevel p = "high" ↔ 7/10 ≤ p)) ∧
    riskLevel (29/100) = "low" ∧ riskLevel (3/10) = "medium" ∧
    riskLevel (69/100) = "medium" ∧ riskLevel (7/10) = "high" := by
  refine ⟨?_, by norm_num [riskLevel], by norm_num [riskLevel],
    by norm_num [riskLevel], by norm_num [riskLevel]⟩
  unfold riskLevel
  split_ifs with hl hm
  · exact ⟨⟨fun _ => hl, fun _ => rfl⟩,
      ⟨fun h => absurd h (by decide), fun h => absurd hl (not_lt.2 h.1)⟩,
      ⟨fun h => absurd h (by decide), fun h => False.elim (by linarith)⟩⟩
  · exact ⟨⟨fun h => absurd h (by decide), fun h => absurd h hl⟩,
      ⟨fun _ => ⟨not_lt.1 hl, hm⟩, fun _ => rfl⟩,
      ⟨fun h => absurd h (by decide), fun h => absurd hm (not_lt.2 h)⟩⟩
  · exact ⟨⟨fun h => absurd h (by decide), fun h => absurd h hl⟩,
      ⟨fun h => absurd h (by decide), fun h => absurd h.2 hm⟩,
      ⟨fun _ => not_lt.1 hm, fun _ => rfl⟩⟩

lemma heuristicSum_acom : heuristicSum "http://a.com" "a.com".data = 0 := by
  have h1 : keywordScore "http://a.com" = 0 := by
    have h : heuristicKeywordCount "http://a.com" = 0 := by decide
    simp [keywordScore, h]
  have h2 : ipScore "http://a.com" = 0 := by
    have h : hasIPAddressLenient "http://a.com" = false := by decide
    simp [ipScore, h]
  have h3 : tldScore "http://a.com" = 0 := by
    have h : heuristicSuspiciousTlds.any
        (fun t => t.data.isSuffixOf (lowerData "http://a.com")) = false := by decide
    simp [tldScore, h]
  have h4 : atSymbolScore "http://a.com" = 0 := by
    have h : "http://a.com".data.contains '@' = false := by decide
    simp [atSymbolScore, h]
  have h5 : hyphenScore "a.com".data = 0 := by
    have h : ("a.com".data.count '-') = 0 := by decide
    simp [hyphenScore, h]
  have h6 : impersonationBonus "http://a.com" "a.com".data = 0 := by
    have h : legitimateDomains.find?
        (impersonates "http://a.com" "a.com".data) = none := by decide
    simp [impersonationBonus, h]
  have h7 : lengthScore "http://a.com" = 0 := by
    have h : ¬ ("http://a.com".data.length > 100) := by decide
    simp [lengthScore, h]
  have h8 : noHttpsScore "http://a.com" = 0 := by
    have h : (!("https://".data.isPrefixOf "http://a.com".data) &&
        (["login", "signin", "account", "secure"].any fun k =>
          isSub k.data (lowerData "http://a.com"))) = false := by decide
    unfold noHttpsScore
    rw [h]
    simp
  unfold heuristicSum
  rw [h1, h2, h3, h4, h5, h6, h7, h8]
  norm_num

lemma applyHeuristics_acom : applyHeuristics "http://a.com" = .ok 0 := by
  have hp : urlparseE "http://a.com" =
      .ok ⟨"http".data, "a.com".data, [], [], []⟩ := rfl
  rw [applyHeuristics_ok _ _ hp]
  show Except.ok (min (heuristicSum "http://a.com" "a.com".data) 1) = _
  rw [heuristicSum_acom]
  norm_num

/-- Claim C5 (confirmed): in `_apply_heuristics`, whenever some brand of the
allow-list occurs in the lowercased URL while the parsed netloc does not end
with it, the impersonation rule contributes exactly 0.6, and it does so once:
the total is the clamped sum in which the impersonation summand is the single
constant 0.6 (first matching brand only, via the loop's `break`), no matter
how many brands match or how often one occurs; with no matching brand it
contributes 0. -/
theorem c5_impersonation_once (url : String) (pr : UrlSplit)
    (hp : urlparseE url = .ok pr) :
    ((∃ d ∈ legitimateDomains, impersonates url pr.netloc d = true) →
      impersonationBonus url pr.netloc = 6/10 ∧
      applyHeuristics url = .ok (min
        (keywordScore url + ipScore url + tldScore url + atSymbolScore url +
         hyphenScore pr.netloc + 6/10 + lengthScore url + noHttpsScore url) 1)) ∧
    ((¬ ∃ d ∈ legitimateDomains, impersonates url pr.netloc d = true) →
      impersonationBonus url pr.netloc = 0) := by
  constructor
  · intro h
    have hb := impersonationBonus_of_any url pr.netloc h
    refine ⟨hb, ?_⟩
    rw [applyHeuristics_ok url pr hp]
    unfold heuristicSum
    rw [hb]
  · exact impersonationBonus_of_none url pr.netloc

/-- Witness for C5: `"http://paypal.com.fake.com"` contains `"paypal.com"`
but its netloc does not end with it, and the rule contributes exactly 0.6. -/
theorem c5_witness :
    impersonationBonus "http://paypal.com.fake.com" "paypal.com.fake.com".data
      = 6/10 := by
  have hp : urlparseE "http://paypal.com.fake.com" =
      .ok ⟨"http".data, "paypal.com.fake.com".data, [], [], []⟩ := rfl
  exact ((c5_impersonation_once "http://paypal.com.fake.com" _ hp).1
    ⟨"paypal.com", by decide, by decide⟩).1

/-- Claim C6 (corrected), counterexample: `_apply_heuristics` does not return
a value for every URL string — on `"http://["` the `urlparse` call inside it
raises `ValueError("Invalid IPv6 URL")`, which propagates (the function has
no handler), so no score in [0,1] is returned. -/
theorem c6_counterexample :
    applyHeuristics "http://[" = .error "Invalid IPv6 URL" ∧
    ∀ q : ℚ, applyHeuristics "http://[" ≠ .ok q := by
  refine ⟨rfl, fun q h => ?_⟩
  have herr : applyHeuristics "http://[" = .error "Invalid IPv6 URL" := rfl
  rw [herr] at h
  exact Except.noConfusion h

/-- Claim C6 (amended): for every URL on which `urlparse` succeeds (the only
raising statement), `_apply_heuristics` returns the sum of its non-negative
rule increments clamped above at 1.0, and every returned value lies in
[0,1]; on unparsable URLs such as `"http://["` the `ValueError` propagates
instead. -/
theorem c6_heuristic_bounds (url : String) (q : ℚ)
    (h : applyHeuristics url = .ok q) :
    0 ≤ q ∧ q ≤ 1 ∧
      ∃ pr, urlparseE url = .ok pr ∧ q = min (heuristicSum url pr.netloc) 1 ∧
        0 ≤ heuristicSum url pr.netloc := by
  obtain ⟨h0, h1⟩ := applyHeuristics_bounds url q h
  refine ⟨h0, h1, ?_⟩
  unfold applyHeuristics at h
  rcases hp : urlparseE url with e | pr <;> rw [hp] at h
  · cases h
  · cases h
    exact ⟨pr, rfl, rfl, heuristicSum_nonneg url pr.netloc⟩

/-- Witness for C6 at `"http://a.com"`, where the scorer returns 0. -/
theorem c6_witness :
    applyHeuristics "http://a.com" = .ok 0 ∧ ((0:ℚ) ≤ 0 ∧ (0:ℚ) ≤ 1) := by
  have hb := c6_heuristic_bounds "http://a.com" 0 applyHeuristics_acom
  exact ⟨applyHeuristics_acom, hb.1, hb.2.1⟩

lemma sum_ite_eq_filter_length (l : List String) (p : String → Bool) :
    (l.map fun k => if p k then 1 else 0).sum = (l.filter p).length := by
  induction l with
  | nil => rfl
  | cons a t ih =>
    by_cases h : p a
    · simp [List.filter_cons, h, ih]
      omega
    · simp [List.filter_cons, h, ih]

/-- Claim C8 (confirmed): the suspicious-keyword feature counts how many of
the 20 fixed keywords occur as case-insensitive substrings of the URL, each
keyword at most once regardless of repetitions; the count for
`"http://secure-login-verify.com"` is 3 (secure, login, verify). -/
theorem c8_keyword_count :
    suspiciousKeywordCount "http://secure-login-verify.com" = 3 ∧
    suspiciousKeywordCount "http://login.login.com" = 1 ∧
    suspiciousKeywords.length = 20 ∧
    (∀ url, suspiciousKeywordCount url =
      (suspiciousKeywords.filter fun k => isSub k.data (lowerData url)).length) ∧
    (∀ url, suspiciousKeywordCount url ≤ 20) := by
  refine ⟨by decide, by decide, by decide,
    fun url => sum_ite_eq_filter_length _ _, fun url => ?_⟩
  have h1 := sum_ite_eq_filter_length suspiciousKeywords
    (fun k => isSub k.data (lowerData url))
  have h2 := List.length_filter_le (fun k => isSub k.data (lowerData url))
    suspiciousKeywords
  have h3 : suspiciousKeywords.length = 20 := by decide
  show (suspiciousKeywords.map fun k =>
    if isSub k.data (lowerData url) then 1 else 0).sum ≤ 20
  omega

/-- Claim C9 (confirmed): `_estimate_domain_age` is decided by the first
matching rule in precedence order: brand substring → 1.0; year token
2020–2024 in the URL → 0.2; domain length ≤ 4 → 0.3; domain Shannon entropy
> 4.0 → 0.25; otherwise the 0.5 default. -/
theorem c9_domain_age (domain url : String) :
    (wellKnownHit domain = true → estimateDomainAge domain url = 1) ∧
    (wellKnownHit domain = false → yearHit url = true →
      estimateDomainAge domain url = 0.2) ∧
    (wellKnownHit domain = false → yearHit url = false →
      domain.data.length ≤ 4 → estimateDomainAge domain url = 0.3) ∧
    (wellKnownHit domain = false → yearHit url = false →
      ¬ domain.data.length ≤ 4 → shannonEntropy domain.data > 4 →
      estimateDomainAge domain url = 0.25) ∧
    (wellKnownHit domain = false → yearHit url = false →
      ¬ domain.data.length ≤ 4 → ¬ shannonEntropy domain.data > 4 →
      estimateDomainAge domain url = 0.5) := by
  unfold estimateDomainAge
  refine ⟨fun h1 => ?_, fun h1 h2 => ?_, fun h1 h2 h3 => ?_,
    fun h1 h2 h3 h4 => ?_, fun h1 h2 h3 h4 => ?_⟩
  · rw [if_pos h1]
  · rw [if_neg (by simp [h1]), if_pos h2]
  · rw [if_neg (by simp [h1]), if_neg (by simp [h2]), if_pos h3]
  · rw [if_neg (by simp [h1]), if_neg (by simp [h2]), if_neg h3, if_pos h4]
  · rw [if_neg (by simp [h1]), if_neg (by simp [h2]), if_neg h3, if_neg h4]

/-- Witness for C9: the domain `"google"` matches the brand rule, so the
indicator is 1. -/
theorem c9_witness :
    wellKnownHit "google" = true ∧
      estimateDomainAge "google" "http://google.com" = 1 :=
  ⟨by decide, (c9_domain_age "google" "http://google.com").1 (by decide)⟩

/-- Claim C4 (confirmed): `_calculate_shannon_entropy` returns 0.0 on the
empty string; on every non-empty string it equals `−Σ p·log2(p)` over the
character-frequency distribution; it returns 0.0 on `"aaaa"` and 1.0 on
`"ab"`; and it is always ≥ 0 and ≤ log2 of the number of distinct
characters. -/
theorem c4_shannon_entropy :
    shannonEntropy "".data = 0 ∧
    shannonEntropy "aaaa".data = 0 ∧
    shannonEntropy "ab".data = 1 ∧
    (∀ l : List Char, l ≠ [] → shannonEntropy l = ∑ c ∈ l.toFinset,
      -((l.count c : ℝ) / l.length * Real.logb 2 ((l.count c : ℝ) / l.length))) ∧
    (∀ l : List Char, 0 ≤ shannonEntropy l) ∧
    (∀ l : List Char, shannonEntropy l ≤ Real.logb 2 (l.toFinset.card)) :=
  ⟨shannonEntropy_nil, shannonEntropy_aaaa, shannonEntropy_ab,
    shannonEntropy_eq_sum, shannonEntropy_nonneg, shannonEntropy_le_logb_card⟩

/-- Witness for C4 at the non-empty string `"ab"`. -/
theorem c4_witness :
    "ab".data ≠ [] ∧
    shannonEntropy "ab".data = ∑ c ∈ "ab".data.toFinset,
      -(("ab".data.count c : ℝ) / "ab".data.length *
        Real.logb 2 (("ab".data.count c : ℝ) / "ab".data.length)) :=
  ⟨by decide, c4_shannon_entropy.2.2.2.1 "ab".data (by decide)⟩

lemma urlparse_qqq : urlparseE "???" = .ok ⟨[], [], [], ['?', '?'], []⟩ := rfl

lemma tldExtract_qqq : tldExtract "???" = ⟨[], [], []⟩ := rfl

lemma urlparse_bracket : urlparseE "http://[" = .error "Invalid IPv6 URL" := rfl

lemma tldCategoryN_empty : tldCategoryN [] = 1 := by decide

lemma domainFeatures_qqq : domainFeatures "???" = [0, 0, 1, 0, 0, 0, 2] := by
  simp [domainFeatures, urlparse_qqq, tldExtract_qqq, tldCategoryN_empty,
    shannonEntropy_nil]

/-- Claim C3 (corrected), counterexample: on the input `"???"`, domain
decomposition does not fail — `urlparse` puts `"??"` into the query — and
the returned domain block is `[0, 0, 1, 0, 0, 0, 2]` (tld_category is the
neutral 1 and query_length is 2), not all zeros as the claim states. -/
theorem c3_counterexample :
    (advancedExtract "???").length = 20 ∧
    (advancedExtract "???").drop 13 = [0, 0, 1, 0, 0, 0, 2] ∧
    (advancedExtract "???").drop 13 ≠ [0, 0, 0, 0, 0, 0, 0] := by
  have hdrop : (advancedExtract "???").drop 13 = domainFeatures "???" := by
    show (lexicalFeatures "???" ++ statisticalFeatures "???" ++
      domainFeatures "???").drop 13 = _
    simp [lexicalFeatures, statisticalFeatures]
  refine ⟨?_, by rw [hdrop, domainFeatures_qqq], ?_⟩
  · show (lexicalFeatures "???" ++ statisticalFeatures "???" ++
      domainFeatures "???").length = 20
    simp [lexicalFeatures, statisticalFeatures, domainFeatures_qqq]
  · rw [hdrop, domainFeatures_qqq]
    simp

/-- Claim C3 (amended): `extract_features` never raises and always returns a
full 20-element vector; the all-zero domain block is produced exactly by the
`except` path, i.e. when `urlparse` raises (as on `"http://["`), while for
`"???"` parsing succeeds and the domain block is `[0, 0, 1, 0, 0, 0, 2]`. -/
theorem c3_fail_soft :
    (∀ url, (advancedExtract url).length = 20) ∧
    (∀ url e, urlparseE url = .error e →
      domainFeatures url = [0, 0, 0, 0, 0, 0, 0]) ∧
    urlparseE "http://[" = .error "Invalid IPv6 URL" ∧
    (advancedExtract "???").drop 13 = [0, 0, 1, 0, 0, 0, 2] := by
  refine ⟨fun url => ?_, fun url e h => by simp [domainFeatures, h],
    urlparse_bracket, ?_⟩
  · rcases h : urlparseE url with e | pr <;>
      simp [advancedExtract, lexicalFeatures, statisticalFeatures,
        domainFeatures, h]
  · show (lexicalFeatures "???" ++ statisticalFeatures "???" ++
      domainFeatures "???").drop 13 = _
    simp [lexicalFeatures, statisticalFeatures, domainFeatures_qqq]

/-- Witness for C3: `"http://["` makes `urlparse` raise, and the domain block
of the feature vector is all zeros there. -/
theorem c3_witness : domainFeatures "http://[" = [0, 0, 0, 0, 0, 0, 0] :=
  c3_fail_soft.2.1 "http://[" "Invalid IPv6 URL" urlparse_bracket

/-- Claim C2 (corrected), counterexample: the error object of
`PhishingPredictor.predict` does NOT have the same field set as a successful
result — on the empty URL the returned dict has keys
(url, error, prediction, confidence) and lacks probability, risk_level and
is_safe, which a successful result (e.g. on `"http://a.com"`) carries. -/
theorem c2_counterexample :
    (predict (fun _ => Except.ok (1/2 : ℚ)) "").map Prod.fst =
      ["url", "error", "prediction", "confidence"] ∧
    (predict (fun _ => Except.ok (1/2 : ℚ)) "http://a.com").map Prod.fst =
      ["url", "prediction", "confidence", "probability", "risk_level",
       "is_safe"] ∧
    "risk_level" ∉ (predict (fun _ => Except.ok (1/2 : ℚ)) "").map Prod.fst ∧
    "risk_level" ∈
      (predict (fun _ => Except.ok (1/2 : ℚ)) "http://a.com").map Prod.fst := by
  have h1 : (predict (fun _ => Except.ok (1/2 : ℚ)) "").map Prod.fst =
      ["url", "error", "prediction", "confidence"] := rfl
  have h2 : (predict (fun _ => Except.ok (1/2 : ℚ)) "http://a.com").map Prod.fst =
      ["url", "prediction", "confidence", "probability", "risk_level",
       "is_safe"] := rfl
  refine ⟨h1, h2, ?_, ?_⟩
  · rw [h1]; decide
  · rw [h2]; decide

/-- Claim C2 (amended): `predict` never raises; every result is either the
structured error object — carrying label "error", confidence 0.0 and the
message, with field set (url, error, prediction, confidence) — or the
successful result with field set (url, prediction, confidence, probability,
risk_level, is_safe); the error object lacks the probability, risk_level and
is_safe fields. -/
theorem c2_error_shape (M : List ℝ → Except String ℚ) (url : String) :
    ((∃ msg, predict M url = errorDict url msg) ∨
     (∃ p, predict M url = successDict url p)) ∧
    (∀ msg, (errorDict url msg).map Prod.fst =
        ["url", "error", "prediction", "confidence"] ∧
      ("prediction", JVal.s "error") ∈ errorDict url msg ∧
      ("confidence", JVal.q 0) ∈ errorDict url msg ∧
      ("error", JVal.s msg) ∈ errorDict url msg) ∧
    (∀ p, (successDict url p).map Prod.fst =
      ["url", "prediction", "confidence", "probability", "risk_level",
       "is_safe"]) := by
  refine ⟨?_, fun msg => ⟨rfl, List.Mem.tail _ (List.Mem.tail _ (List.Mem.head _)),
    List.Mem.tail _ (List.Mem.tail _ (List.Mem.tail _ (List.Mem.head _))),
    List.Mem.tail _ (List.Mem.head _)⟩, fun p => rfl⟩
  by_cases h : url.data = []
  · exact Or.inl ⟨"Invalid URL provided", by unfold predict; rw [if_pos h]⟩
  · rcases hM : M (basicExtract url) with e | m
    · exact Or.inl ⟨e, by unfold predict; rw [if_neg h, hM]⟩
    · rcases hH : applyHeuristics url with e2 | hsc
      · exact Or.inl ⟨e2, by unfold predict; rw [if_neg h, hM, hH]⟩
      · exact Or.inr ⟨6/10 * m + 4/10 * hsc,
          by unfold predict; rw [if_neg h, hM, hH]⟩

/-- Claim C10 (confirmed): for every URL and every model output `m ∈ [0,1]`,
on a non-error run the blended probability `p = 0.6·m + 0.4·heuristic` lies
in [0,1] and the confidence of the result is at least 0.5 — both before and
after the 4-decimal rounding applied to the returned dict. -/
theorem c10_confidence_floor (M : List ℝ → Except String ℚ) (url : String)
    (m hsc : ℚ) (hurl : url.data ≠ [])
    (hM : M (basicExtract url) = .ok m) (hm0 : 0 ≤ m) (hm1 : m ≤ 1)
    (hH : applyHeuristics url = .ok hsc) :
    0 ≤ 6/10 * m + 4/10 * hsc ∧ 6/10 * m + 4/10 * hsc ≤ 1 ∧
    1/2 ≤ (decision (6/10 * m + 4/10 * hsc)).confidence ∧
    predict M url = successDict url (6/10 * m + 4/10 * hsc) ∧
    ("confidence",
      JVal.q (round4 (decision (6/10 * m + 4/10 * hsc)).confidence))
      ∈ predict M url ∧
    1/2 ≤ round4 (decision (6/10 * m + 4/10 * hsc)).confidence := by
  obtain ⟨hh0, hh1⟩ := applyHeuristics_bounds url hsc hH
  have h0 : 0 ≤ 6/10 * m + 4/10 * hsc := by linarith
  have h1 : 6/10 * m + 4/10 * hsc ≤ 1 := by linarith
  have hconf : 1/2 ≤ (decision (6/10 * m + 4/10 * hsc)).confidence := by
    show 1/2 ≤ if 6/10 * m + 4/10 * hsc > 1/2 then 6/10 * m + 4/10 * hsc
      else 1 - (6/10 * m + 4/10 * hsc)
    split_ifs with h
    · linarith
    · linarith
  have hpred : predict M url = successDict url (6/10 * m + 4/10 * hsc) := by
    unfold predict
    rw [if_neg hurl, hM, hH]
  refine ⟨h0, h1, hconf, hpred, ?_, round4_ge_half _ hconf⟩
  rw [hpred]
  exact List.Mem.tail _ (List.Mem.tail _ (List.Mem.head _))

/-- Witness for C10 with the constant model 1 on `"http://a.com"` (heuristic
score 0, blended probability 0.6). -/
theorem c10_witness :
    1/2 ≤ (decision ((6:ℚ)/10 * 1 + 4/10 * 0)).confidence ∧
    1/2 ≤ round4 (decision ((6:ℚ)/10 * 1 + 4/10 * 0)).confidence := by
  have h := c10_confidence_floor (fun _ => Except.ok 1) "http://a.com" 1 0
    (by decide) rfl (by norm_num) (by norm_num) applyHeuristics_acom
  exact ⟨h.2.2.1, h.2.2.2.2.2⟩

end Phishing
